import Mathlib

/-!
# Verification of the wallet risk scorer (`src/scorer.py`)

Shallow embedding of the two core functions of `scorer.py`:

* `calculate_features` (feature extraction from one wallet's transaction
  list, lines 41–87), and
* `calculate_risk_scores` (batch-relative normalization, weighting and
  rescaling, lines 90–122).

Python/pandas floating-point arithmetic is embedded over `ℚ` (exact
rationals); the claims under verification concern exact values (0, 1000,
range membership, permutation invariance), for which rounding error is
immaterial and the rational semantics is the faithful idealization the
spec itself reasons in.

Pandas `NaN` propagation is embedded explicitly:

* a transaction dict that lacks a key contributes a `none` field
  (pandas puts `NaN`/`NaT` in the corresponding cell);
* a DataFrame column access for a key that *no* transaction carries
  raises `KeyError`; an extraction run that raises is embedded as the
  `none` result of `calculate_features`;
* a mean over an all-`NaN` column is `NaN`, embedded as a `none`
  value of the `avg_eth_sent` field;
* in the scorer, `1000 * (raw - min) / (max - min)` with
  `max = min` on a non-empty batch produces a column of `NaN`, on which
  `.astype(int)` fails (`IntCastingNaNError` in pandas; an undefined
  integer in old numpy) — embedded as the `none` result of
  `calculate_risk_scores`.
-/

/-- One raw transaction as returned by the Etherscan collaborator
(`get_transactions`): a dict with keys `from`, `to`, `value` (Wei, a
decimal string parsed by `.astype(float)`), and `timeStamp` (epoch
seconds).  A `none` field embeds a dict that lacks that key (the pandas
cell is then `NaN`/`NaT`).  Further Etherscan keys are unused by
`calculate_features` and omitted. -/
structure RawTx where
  fromAddr : Option String
  toAddr : Option String
  value : Option ℚ
  timeStamp : Option ℤ
  deriving DecidableEq, Repr

/-- The feature dict returned by `calculate_features` (lines 79–87).
`avg_eth_sent` is `Option ℚ` because pandas `.mean()` over a non-empty
sent partition whose `value` cells are all `NaN` returns `NaN`
(embedded as `none`); every other field is always a number. -/
structure Features where
  wallet_address : String
  wallet_age_days : ℤ
  tx_count : ℕ
  avg_eth_sent : Option ℚ
  unique_recipients : ℕ
  mock_liquidations : ℕ
  mock_high_ltv_borrows : ℕ
  deriving DecidableEq, Repr

/-- A row of the numeric `features_df` consumed by
`calculate_risk_scores` (after the `fillna(0)` of the main script every
cell is a plain number).  All six feature columns are rationals, as in
the DataFrame they are a single numeric dtype. -/
structure FeatureRecord where
  wallet_address : String
  wallet_age_days : ℚ
  tx_count : ℚ
  avg_eth_sent : ℚ
  unique_recipients : ℚ
  mock_liquidations : ℚ
  mock_high_ltv_borrows : ℚ
  deriving DecidableEq, Repr

/-- Minimum of a list of rationals, as pandas `Series.min()` computes it
on a non-empty column ( `[]` is mapped to the junk value `0`; the scorer
never takes the min of an empty column on a path where the value is
used). -/
def colMin : List ℚ → ℚ
  | [] => 0
  | x :: xs => xs.foldl min x

/-- Maximum of a list of rationals, as pandas `Series.max()` computes it
on a non-empty column. -/
def colMax : List ℚ → ℚ
  | [] => 0
  | x :: xs => xs.foldl max x

/-- Lines 109–112: min–max normalization of one cell against its
column's min and max, with the zero-spread branch
`normalized_df[feature] = 0`. -/
def normalizeVal (v lo hi : ℚ) : ℚ :=
  if hi - lo > 0 then (v - lo) / (hi - lo) else 0

/-- The fixed weight table of `calculate_risk_scores` (lines 94–101),
as accessor/weight pairs in the dict's insertion order. -/
def weights : List ((FeatureRecord → ℚ) × ℚ) :=
  [ (FeatureRecord.wallet_age_days, -(1/10)),
    (FeatureRecord.tx_count, 15/100),
    (FeatureRecord.avg_eth_sent, 2/10),
    (FeatureRecord.unique_recipients, 25/100),
    (FeatureRecord.mock_liquidations, 5/10),
    (FeatureRecord.mock_high_ltv_borrows, 4/10) ]

/-- Line 115: one wallet's raw score — the sum over the six feature
columns of the batch-normalized cell times its weight. -/
def rawScore (rs : List FeatureRecord) (r : FeatureRecord) : ℚ :=
  (weights.map fun fw =>
    normalizeVal (fw.1 r) (colMin (rs.map fw.1)) (colMax (rs.map fw.1)) * fw.2).sum

/-- Truncation of a rational toward zero, the semantics of numpy
`.astype(int)` on a finite float. -/
def truncQ (q : ℚ) : ℤ :=
  q.num.tdiv q.den

/-- Lines 90–122, `calculate_risk_scores`: normalize each feature
column to `[0,1]` against the batch min/max (zero-spread columns
becoming 0), take the weighted sum as the raw score, then rescale by
`1000 * (raw - raw_min) / (raw_max - raw_min)` and truncate to int.

On the empty batch every series is empty and `.astype(int)` succeeds,
giving the empty result.  On a non-empty batch with
`raw_max = raw_min` the rescale divides 0 by 0, the final column is all
`NaN`, and `.astype(int)` fails: embedded as `none`. -/
def calculate_risk_scores (rs : List FeatureRecord) : Option (List (String × ℤ)) :=
  match rs with
  | [] => some []
  | r0 :: rest =>
    let batch := r0 :: rest
    let raws := batch.map (rawScore batch)
    let min_score := colMin raws
    let max_score := colMax raws
    if max_score - min_score > 0 then
      some (batch.map fun r =>
        (r.wallet_address,
         truncQ (1000 * (rawScore batch r - min_score) / (max_score - min_score))))
    else
      none

/-- Python `str.lower()` / pandas `.str.lower()`: lowercase every
character.  This is `String.toLower` (`String.map Char.toLower`)
written as a direct map over the underlying character list, so that
concrete instances reduce inside the kernel. -/
def strLower (s : String) : String :=
  ⟨s.data.map Char.toLower⟩

/-- Minimum of a non-empty list of integer timestamps
(`df['timeStamp'].min()`, which skips `NaT` cells; the caller passes the
list of present timestamps). -/
def tsMin : List ℤ → ℤ
  | [] => 0
  | x :: xs => xs.foldl min x

/-- Lines 41–87, `calculate_features`, for one wallet.  `now` is the
epoch-second instant captured by `datetime.now()`.

* Empty transaction list (lines 43–50): the early return with every
  feature 0 — including both mock flags, which are hard-coded `0` there
  and not derived from the address.
* Non-empty list: a DataFrame is built from the dicts.  A column access
  for a key carried by no transaction raises `KeyError`
  (`df['value']` line 55, `df['timeStamp']` line 56, `df['from']`
  line 66, `sent_tx['to']` line 70), and `wallet_address[-2]`
  (line 77) raises `IndexError` on an address shorter than 2; any raise
  is the `none` result.  Otherwise: `wallet_age_days` floors the
  second difference to whole days, `tx_count` counts *all* rows
  (malformed ones included), the sent partition compares lowercased
  senders (a `NaN` sender never matches), `avg_eth_sent` averages the
  present Ether values of the sent rows (`NaN` if none are present,
  `0` if the partition itself is empty), `unique_recipients` counts
  distinct present recipients of sent rows case-sensitively, and the
  mock flags test the last and second-to-last address characters. -/
def calculate_features (transactions : List RawTx) (wallet_address : String)
    (now : ℤ) : Option Features :=
  match transactions with
  | [] =>
    some { wallet_address := wallet_address, wallet_age_days := 0, tx_count := 0,
           avg_eth_sent := some 0, unique_recipients := 0,
           mock_liquidations := 0, mock_high_ltv_borrows := 0 }
  | t0 :: ts =>
    let txs := t0 :: ts
    if txs.all fun t => t.value.isNone then none
    else if txs.all fun t => t.timeStamp.isNone then none
    else if txs.all fun t => t.fromAddr.isNone then none
    else if txs.all fun t => t.toAddr.isNone then none
    else
      match wallet_address.toList.reverse with
      | c1 :: c2 :: _ =>
        let first_tx_date := tsMin (txs.filterMap RawTx.timeStamp)
        let wallet_age_days := (now - first_tx_date) / 86400
        let tx_count := txs.length
        let sent_tx := txs.filter fun t =>
          (t.fromAddr.map strLower) == some (strLower wallet_address)
        let sentVals := (sent_tx.filterMap RawTx.value).map (· / (10 ^ 18 : ℚ))
        let avg_eth_sent : Option ℚ :=
          if sent_tx.isEmpty then some 0
          else if sentVals.isEmpty then none
          else some (sentVals.sum / sentVals.length)
        let unique_recipients := (sent_tx.filterMap RawTx.toAddr).dedup.length
        let mock_liquidations := if c1 ∈ ['0', '1', '2'] then 1 else 0
        let mock_high_ltv_borrows := if c2 ∈ ['a', 'b', 'c'] then 1 else 0
        some { wallet_address := wallet_address, wallet_age_days := wallet_age_days,
               tx_count := tx_count, avg_eth_sent := avg_eth_sent,
               unique_recipients := unique_recipients,
               mock_liquidations := mock_liquidations,
               mock_high_ltv_borrows := mock_high_ltv_borrows }
      | _ => none

/-! ## Concrete records used in witnesses and counterexamples -/

/-- Wallet A of the spec's two-wallet example (§8). -/
def recA : FeatureRecord :=
  { wallet_address := "walletA", wallet_age_days := 0, tx_count := 0,
    avg_eth_sent := 0, unique_recipients := 0,
    mock_liquidations := 0, mock_high_ltv_borrows := 0 }

/-- Wallet B of the spec's two-wallet example (§8). -/
def recB : FeatureRecord :=
  { wallet_address := "walletB", wallet_age_days := 100, tx_count := 50,
    avg_eth_sent := 2, unique_recipients := 10,
    mock_liquidations := 1, mock_high_ltv_borrows := 1 }

/-- An arbitrary single wallet row, for degenerate-batch inputs. -/
def recC : FeatureRecord :=
  { wallet_address := "walletC", wallet_age_days := 3, tx_count := 4,
    avg_eth_sent := 5, unique_recipients := 6,
    mock_liquidations := 1, mock_high_ltv_borrows := 0 }

/-- A well-formed transaction: `"cd"` sent 5 Wei to `"ab"` at epoch
second 10. -/
def txWellFormed : RawTx :=
  { fromAddr := some "cd", toAddr := some "ab", value := some 5, timeStamp := some 10 }

/-- A malformed transaction lacking the required `value` field. -/
def txNoValue : RawTx :=
  { fromAddr := some "cd", toAddr := some "ab", value := none, timeStamp := some 10 }

/-! ## Helper lemmas on list folds of `min`/`max` -/

theorem foldl_min_le_init (xs : List ℚ) (x : ℚ) : xs.foldl min x ≤ x := by
  induction xs generalizing x with
  | nil => exact le_refl x
  | cons y ys ih => exact le_trans (ih (min x y)) (min_le_left x y)

theorem foldl_min_le_mem (xs : List ℚ) (x : ℚ) :
    ∀ y ∈ xs, xs.foldl min x ≤ y := by
  induction xs generalizing x with
  | nil => intro y hy; cases hy
  | cons z zs ih =>
    intro y hy
    rcases List.mem_cons.1 hy with rfl | hy
    · exact le_trans (foldl_min_le_init zs (min x y)) (min_le_right x y)
    · exact ih (min x z) y hy

theorem foldl_min_mem (xs : List ℚ) (x : ℚ) :
    xs.foldl min x = x ∨ xs.foldl min x ∈ xs := by
  induction xs generalizing x with
  | nil => exact Or.inl rfl
  | cons y ys ih =>
    rcases ih (min x y) with h | h
    · rcases min_cases x y with ⟨hm, _⟩ | ⟨hm, _⟩
      · exact Or.inl (by rw [List.foldl_cons, h, hm])
      · exact Or.inr (by rw [List.foldl_cons, h, hm]; exact List.mem_cons_self y ys)
    · exact Or.inr (List.mem_cons_of_mem y h)

theorem le_foldl_max_init (xs : List ℚ) (x : ℚ) : x ≤ xs.foldl max x := by
  induction xs generalizing x with
  | nil => exact le_refl x
  | cons y ys ih => exact le_trans (le_max_left x y) (ih (max x y))

theorem mem_le_foldl_max (xs : List ℚ) (x : ℚ) :
    ∀ y ∈ xs, y ≤ xs.foldl max x := by
  induction xs generalizing x with
  | nil => intro y hy; cases hy
  | cons z zs ih =>
    intro y hy
    rcases List.mem_cons.1 hy with rfl | hy
    · exact le_trans (le_max_right x y) (le_foldl_max_init zs (max x y))
    · exact ih (max x z) y hy

theorem foldl_max_mem (xs : List ℚ) (x : ℚ) :
    xs.foldl max x = x ∨ xs.foldl max x ∈ xs := by
  induction xs generalizing x with
  | nil => exact Or.inl rfl
  | cons y ys ih =>
    rcases ih (max x y) with h | h
    · rcases max_cases x y with ⟨hm, _⟩ | ⟨hm, _⟩
      · exact Or.inl (by rw [List.foldl_cons, h, hm])
      · exact Or.inr (by rw [List.foldl_cons, h, hm]; exact List.mem_cons_self y ys)
    · exact Or.inr (List.mem_cons_of_mem y h)

theorem colMin_le_mem (l : List ℚ) : ∀ y ∈ l, colMin l ≤ y := by
  cases l with
  | nil => intro y hy; cases hy
  | cons x xs =>
    intro y hy
    rcases List.mem_cons.1 hy with rfl | hy
    · exact foldl_min_le_init xs y
    · exact foldl_min_le_mem xs x y hy

theorem mem_le_colMax (l : List ℚ) : ∀ y ∈ l, y ≤ colMax l := by
  cases l with
  | nil => intro y hy; cases hy
  | cons x xs =>
    intro y hy
    rcases List.mem_cons.1 hy with rfl | hy
    · exact le_foldl_max_init xs y
    · exact mem_le_foldl_max xs x y hy

theorem colMin_mem (l : List ℚ) (h : l ≠ []) : colMin l ∈ l := by
  cases l with
  | nil => exact absurd rfl h
  | cons x xs =>
    rcases foldl_min_mem xs x with h' | h'
    · show xs.foldl min x ∈ x :: xs
      rw [h']; exact List.mem_cons_self x xs
    · exact List.mem_cons_of_mem x h'

theorem colMax_mem (l : List ℚ) (h : l ≠ []) : colMax l ∈ l := by
  cases l with
  | nil => exact absurd rfl h
  | cons x xs =>
    rcases foldl_max_mem xs x with h' | h'
    · show xs.foldl max x ∈ x :: xs
      rw [h']; exact List.mem_cons_self x xs
    · exact List.mem_cons_of_mem x h'

theorem colMin_perm {l l' : List ℚ} (p : l.Perm l') : colMin l = colMin l' := by
  cases l with
  | nil => rw [p.symm.eq_nil]
  | cons x xs =>
    have hne : l' ≠ [] := fun h => by simp [h] at p
    have h1 : colMin (x :: xs) ≤ colMin l' :=
      colMin_le_mem _ _ (p.mem_iff.2 (colMin_mem l' hne))
    have h2 : colMin l' ≤ colMin (x :: xs) :=
      colMin_le_mem _ _ (p.mem_iff.1 (colMin_mem (x :: xs) (by simp)))
    exact le_antisymm h1 h2

theorem colMax_perm {l l' : List ℚ} (p : l.Perm l') : colMax l = colMax l' := by
  cases l with
  | nil => rw [p.symm.eq_nil]
  | cons x xs =>
    have hne : l' ≠ [] := fun h => by simp [h] at p
    have h1 : colMax (x :: xs) ≤ colMax l' :=
      mem_le_colMax _ _ (p.mem_iff.1 (colMax_mem (x :: xs) (by simp)))
    have h2 : colMax l' ≤ colMax (x :: xs) :=
      mem_le_colMax _ _ (p.mem_iff.2 (colMax_mem l' hne))
    exact le_antisymm h1 h2

/-! ## Helper lemmas on `truncQ` -/

theorem truncQ_eq_floor {q : ℚ} (h : 0 ≤ q) : truncQ q = ⌊q⌋ := by
  unfold truncQ
  rw [Int.tdiv_eq_ediv (Rat.num_nonneg.2 h) (Int.ofNat_nonneg q.den)]
  exact Rat.floor_def.symm

theorem truncQ_nonneg {q : ℚ} (h : 0 ≤ q) : 0 ≤ truncQ q := by
  rw [truncQ_eq_floor h]
  exact Int.floor_nonneg.2 h

theorem truncQ_le_of_le {q : ℚ} (h0 : 0 ≤ q) (h : q ≤ 1000) : truncQ q ≤ 1000 := by
  rw [truncQ_eq_floor h0]
  have h1 : ((⌊q⌋ : ℤ) : ℚ) ≤ 1000 := le_trans (Int.floor_le q) h
  exact_mod_cast h1

/-! ## Permutation invariance of the raw score -/

theorem rawScore_perm {rs rs' : List FeatureRecord} (p : rs.Perm rs') (r : FeatureRecord) :
    rawScore rs r = rawScore rs' r := by
  unfold rawScore
  congr 1
  apply List.map_congr_left
  intro fw _
  rw [colMin_perm (p.map fw.1), colMax_perm (p.map fw.1)]

/-! ## Claim theorems for the batch scorer -/

/-- C1: for every batch of FeatureRecords, every score the batch scorer
`calculate_risk_scores` returns is an integer in the closed range
`[0, 1000]`. -/
theorem C1_scores_in_range (rs : List FeatureRecord) (out : List (String × ℤ))
    (h : calculate_risk_scores rs = some out) :
    ∀ p ∈ out, 0 ≤ p.2 ∧ p.2 ≤ 1000 := by
  cases rs with
  | nil =>
    simp only [calculate_risk_scores, Option.some_inj] at h
    subst h
    intro p hp
    cases hp
  | cons r0 rest =>
    simp only [calculate_risk_scores] at h
    set batch := r0 :: rest with hbatch
    set raws := batch.map (rawScore batch) with hraws
    set m := colMin raws with hm
    set M := colMax raws with hM
    by_cases hpos : M - m > 0
    · rw [if_pos hpos, Option.some_inj] at h
      subst h
      intro p hp
      rcases List.mem_map.1 hp with ⟨r, hr, rfl⟩
      have hmem : rawScore batch r ∈ raws := List.mem_map_of_mem _ hr
      have h1 : m ≤ rawScore batch r := colMin_le_mem _ _ hmem
      have h2 : rawScore batch r ≤ M := mem_le_colMax _ _ hmem
      have hq0 : 0 ≤ 1000 * (rawScore batch r - m) / (M - m) :=
        div_nonneg (by linarith) (le_of_lt hpos)
      have hq1 : 1000 * (rawScore batch r - m) / (M - m) ≤ 1000 := by
        rw [div_le_iff₀ hpos]
        linarith
      exact ⟨truncQ_nonneg hq0, truncQ_le_of_le hq0 hq1⟩
    · rw [if_neg hpos] at h
      cases h

/-- Witness for C1 at the concrete batch `[recA, recB]`: the first
returned pair's score is in `[0, 1000]`. -/
theorem C1_scores_in_range_witness :
    0 ≤ (("walletA", (0 : ℤ))).2 ∧ (("walletA", (0 : ℤ))).2 ≤ 1000 := by
  refine C1_scores_in_range [recA, recB] [("walletA", 0), ("walletB", 1000)] ?_ _ ?_
  · norm_num [calculate_risk_scores, rawScore, weights, normalizeVal, colMin, colMax,
      recA, recB, truncQ, min_def, max_def]
  · exact List.mem_cons_self _ _

/-- C4: the empty batch yields the empty result, with no error and no
division by zero on an empty min/max. -/
theorem C4_empty_batch : calculate_risk_scores [] = some [] := rfl

/-- C2: contrary to the claim, a batch whose raw weighted scores are all
equal (here the single-record batch `[recC]`) does not get the constant
score 0: the rescale divides zero by zero and `.astype(int)` on the
resulting `NaN` column fails (embedded as `none`). -/
theorem C2_degenerate_batch_fails : calculate_risk_scores [recC] = none := by
  norm_num [calculate_risk_scores, rawScore, weights, normalizeVal, colMin, colMax, recC]

/-- C7: on the spec's two-wallet example batch, wallet A scores exactly
0 and wallet B exactly 1000 (so A scores strictly lower than B). -/
theorem C7_two_wallet_example :
    calculate_risk_scores [recA, recB] = some [("walletA", 0), ("walletB", 1000)] := by
  norm_num [calculate_risk_scores, rawScore, weights, normalizeVal, colMin, colMax,
    recA, recB, truncQ, min_def, max_def]

/-- C6: permuting the input batch yields the same wallet→score mapping:
either both runs fail identically, or both succeed and the two
address/score pair lists are permutations of each other. -/
theorem C6_order_independent (rs rs' : List FeatureRecord) (p : rs.Perm rs') :
    (calculate_risk_scores rs = none ∧ calculate_risk_scores rs' = none) ∨
    ∃ out out', calculate_risk_scores rs = some out ∧
      calculate_risk_scores rs' = some out' ∧ out.Perm out' := by
  cases rs with
  | nil =>
    have h : rs' = [] := p.symm.eq_nil
    subst h
    exact Or.inr ⟨[], [], rfl, rfl, List.Perm.refl []⟩
  | cons r0 rest =>
    cases rs' with
    | nil => exact absurd p.eq_nil (by simp)
    | cons r0' rest' =>
      set batch := r0 :: rest with hb
      set batch' := r0' :: rest' with hb'
      have hraw : ∀ r, rawScore batch' r = rawScore batch r :=
        fun r => (rawScore_perm p r).symm
      have hmap' : batch'.map (rawScore batch') = batch'.map (rawScore batch) :=
        List.map_congr_left fun r _ => hraw r
      have hpraws : (batch.map (rawScore batch)).Perm (batch'.map (rawScore batch')) := by
        rw [hmap']
        exact p.map _
      have hmin : colMin (batch'.map (rawScore batch')) = colMin (batch.map (rawScore batch)) :=
        (colMin_perm hpraws).symm
      have hmax : colMax (batch'.map (rawScore batch')) = colMax (batch.map (rawScore batch)) :=
        (colMax_perm hpraws).symm
      simp only [calculate_risk_scores, ← hb, ← hb', hmin, hmax, hraw]
      by_cases hpos : colMax (batch.map (rawScore batch)) -
          colMin (batch.map (rawScore batch)) > 0
      · rw [if_pos hpos, if_pos hpos]
        exact Or.inr ⟨_, _, rfl, rfl, p.map _⟩
      · rw [if_neg hpos, if_neg hpos]
        exact Or.inl ⟨rfl, rfl⟩

/-- Witness for C6: the two-record batch `[recA, recB]` against its
swap `[recB, recA]`. -/
theorem C6_order_independent_witness :
    (calculate_risk_scores [recA, recB] = none ∧
      calculate_risk_scores [recB, recA] = none) ∨
    ∃ out out', calculate_risk_scores [recA, recB] = some out ∧
      calculate_risk_scores [recB, recA] = some out' ∧ out.Perm out' :=
  C6_order_independent [recA, recB] [recB, recA] (List.Perm.swap recB recA [])

/-- C5: whenever a weighted feature column of a batch has equal min and
max, the scorer's normalization step maps that feature to 0 for every
record of the batch. -/
theorem C5_zero_spread_normalizes_to_zero (rs : List FeatureRecord)
    (fw : (FeatureRecord → ℚ) × ℚ) (hfw : fw ∈ weights)
    (r : FeatureRecord) (hr : r ∈ rs)
    (hdeg : colMin (rs.map fw.1) = colMax (rs.map fw.1)) :
    normalizeVal (fw.1 r) (colMin (rs.map fw.1)) (colMax (rs.map fw.1)) = 0 := by
  unfold normalizeVal
  rw [hdeg, sub_self]
  simp

/-- Witness for C5: the `tx_count` column of the single-record batch
`[recC]`. -/
theorem C5_zero_spread_normalizes_to_zero_witness :
    normalizeVal (FeatureRecord.tx_count recC)
      (colMin ([recC].map FeatureRecord.tx_count))
      (colMax ([recC].map FeatureRecord.tx_count)) = 0 :=
  C5_zero_spread_normalizes_to_zero [recC] (FeatureRecord.tx_count, 15/100)
    (List.Mem.tail _ (List.Mem.head _)) recC (List.Mem.head _) rfl

/-! ## Claim theorems for the feature extractor -/

/-- C3 (amended): for every wallet address and the empty transaction
list, `calculate_features` returns the record whose four activity
features are 0 and whose two synthetic flags are also the constant 0 —
the flags are not derived from the address string on this path. -/
theorem C3_empty_tx_all_zero (addr : String) (now : ℤ) :
    calculate_features [] addr now =
      some { wallet_address := addr, wallet_age_days := 0, tx_count := 0,
             avg_eth_sent := some 0, unique_recipients := 0,
             mock_liquidations := 0, mock_high_ltv_borrows := 0 } := rfl

/-- C3 counterexample: for the address `"a0"` — whose last character
`'0'` is in `'012'` and second-to-last `'a'` is in `'abc'`, so the
claim predicts both flags 1 — the empty-transaction-list record has
`mock_liquidations = 0`, not 1. -/
theorem C3_counterexample :
    '0' ∈ ['0', '1', '2'] ∧ 'a' ∈ ['a', 'b', 'c'] ∧
    (calculate_features [] "a0" 0).map Features.mock_liquidations ≠ some 1 := by
  refine ⟨by decide, by decide, ?_⟩
  intro h
  simp only [calculate_features, Option.map_some, Option.some_inj] at h
  cases h

/-- C8: the record extracted from any transaction list satisfies
`unique_recipients ≤ tx_count`. -/
theorem C8_unique_recipients_le_tx_count (txs : List RawTx) (addr : String)
    (now : ℤ) (f : Features) (h : calculate_features txs addr now = some f) :
    f.unique_recipients ≤ f.tx_count := by
  cases txs with
  | nil =>
    simp only [calculate_features, Option.some_inj] at h
    subst h
    exact le_refl 0
  | cons t0 ts =>
    simp only [calculate_features] at h
    split_ifs at h <;>
      first
      | exact Option.noConfusion h
      | (rcases haddr : addr.toList.reverse with _ | ⟨c1, _ | ⟨c2, rest⟩⟩ <;>
          rw [haddr] at h <;>
          first
          | exact Option.noConfusion h
          | (rw [Option.some_inj] at h
             subst h
             exact le_trans
               (le_trans (List.Sublist.length_le (List.dedup_sublist _))
                 (List.length_filterMap_le _ _))
               (List.length_filter_le _ _)))

/-- Witness for C8 at a one-transaction input. -/
theorem C8_unique_recipients_le_tx_count_witness :
    (({ wallet_address := "ab", wallet_age_days := -1, tx_count := 1,
        avg_eth_sent := some 0, unique_recipients := 0,
        mock_liquidations := 0, mock_high_ltv_borrows := 1 } : Features)).unique_recipients ≤
    (({ wallet_address := "ab", wallet_age_days := -1, tx_count := 1,
        avg_eth_sent := some 0, unique_recipients := 0,
        mock_liquidations := 0, mock_high_ltv_borrows := 1 } : Features)).tx_count :=
  C8_unique_recipients_le_tx_count [txWellFormed] "ab" 0 _ (by rfl)

/-- C9: contrary to the claim, a transaction lacking a required field is
not skipped: with the single malformed transaction `txNoValue` (no
`value` key) the DataFrame has no `value` column at all, `df['value']`
(line 55) raises `KeyError`, and the whole wallet's extraction aborts
(embedded as `none`) instead of returning a record computed from the
remaining well-formed transactions. -/
theorem C9_malformed_tx_aborts : calculate_features [txNoValue] "ab" 0 = none := rfl

/-- C10: a wallet that only receives — no transaction's sender equals
the wallet address under case-insensitive comparison — extracts to a
record with `avg_eth_sent` exactly 0. -/
theorem C10_receive_only_avg_zero (txs : List RawTx) (addr : String)
    (now : ℤ) (f : Features) (hne : txs ≠ [])
    (hrecv : ∀ t ∈ txs, ∀ s, t.fromAddr = some s → strLower s ≠ strLower addr)
    (h : calculate_features txs addr now = some f) :
    f.avg_eth_sent = some 0 := by
  cases txs with
  | nil => exact absurd rfl hne
  | cons t0 ts =>
    have hsent : (t0 :: ts).filter
        (fun t => (t.fromAddr.map strLower) == some (strLower addr)) = [] := by
      apply List.filter_eq_nil_iff.2
      intro t ht
      cases hf : t.fromAddr with
      | none => simp [hf]
      | some s =>
        have hs := hrecv t ht s hf
        simp [hf, hs]
    simp only [calculate_features, hsent, List.isEmpty_nil, if_true,
      List.filterMap_nil, List.map_nil] at h
    split_ifs at h <;>
      first
      | exact Option.noConfusion h
      | (rcases haddr : addr.toList.reverse with _ | ⟨c1, _ | ⟨c2, rest⟩⟩ <;>
          rw [haddr] at h <;>
          first
          | exact Option.noConfusion h
          | (rw [Option.some_inj] at h
             subst h
             simp))

/-- Witness for C10: the wallet `"ab"` with one incoming transaction
from `"cd"`. -/
theorem C10_receive_only_avg_zero_witness :
    (({ wallet_address := "ab", wallet_age_days := -1, tx_count := 1,
        avg_eth_sent := some 0, unique_recipients := 0,
        mock_liquidations := 0, mock_high_ltv_borrows := 1 } : Features)).avg_eth_sent =
      some 0 := by
  refine C10_receive_only_avg_zero [txWellFormed] "ab" 0 _ (by simp) ?_ (by rfl)
  intro t ht s hs
  have ht' : t = txWellFormed := by
    rcases List.mem_singleton.1 ht with rfl
    rfl
  subst ht'
  have hs' : s = "cd" := by
    have : some "cd" = some s := hs
    exact (Option.some_inj.1 this).symm
  subst hs'
  decide
